import Mathlib

/-!
# Hetzner floating-IP controller: reconciliation pass and control loop

A shallow embedding of `internal/app/fipcontroller/controller.go`.

* Go pointers into the running-server slice are modelled by the position of
  the element in the slice: `findServerWithLowestFIPAt` returns the position
  together with the pointee, and the in-place `append` on the chosen server is
  an update of the list at that position.  (The slice is assumed to hold
  pairwise distinct pointers, as a fresh provider listing does.)
* The remote collaborators (`nodeAddressList`, `servers`, `getFloatingIPs`,
  `HetznerClient.FloatingIP.Assign`) are parameters, collected in `Env`.
-/

namespace FipController

/-! ## Data model -/

/-- The part of `hcloud.ServerPublicNet` the controller reads: the floating
IPs the provider reports for the server.  The provider fills these entries
with the floating IP's id only, so an entry is its id; the placeholder
`&hcloud.FloatingIP{}` is the zero value, id `0`. -/
structure ServerPublicNet where
  FloatingIPs : List Int
  deriving DecidableEq

/-- The fields of `hcloud.Server` the controller reads. -/
structure Server where
  ID : Int
  Name : String
  PublicNet : ServerPublicNet
  deriving DecidableEq

/-- The fields of `hcloud.FloatingIP` the controller reads.  `Server` is the
nullable `*hcloud.Server`. -/
structure FloatingIP where
  ID : Int
  IP : String
  Server : Option Server
  deriving DecidableEq

/-- Tracked floating-IP count of a server: `len(s.PublicNet.FloatingIPs)`. -/
def fipCount (s : Server) : Nat := s.PublicNet.FloatingIPs.length

/-! ## `findServerWithLowestFIP` -/

/-- The loop `for _, s := range servers { if len(s...) < len(server...) { server = s } }`.
`i` is the position of the head of the remaining slice, `best` the current
value of the variable `server` (position and pointee). -/
def findLoop : List Server → Nat → Nat × Server → Nat × Server
  | [], _, best => best
  | s :: rest, i, best =>
      if fipCount s < fipCount best.2 then findLoop rest (i + 1) (i, s)
      else findLoop rest (i + 1) best

/-- The body of `findServerWithLowestFIP`, returning the pointer as position
and pointee; `none` is the `nil` returned for an empty slice. -/
def findServerWithLowestFIPAt (servers : List Server) : Option (Nat × Server) :=
  match servers with
  | [] => none
  | s0 :: _ => some (findLoop servers 0 (0, s0))

/-- The server `findServerWithLowestFIP` returns (the pointee). -/
def findServerWithLowestFIP (servers : List Server) : Option Server :=
  (findServerWithLowestFIPAt servers).map Prod.snd

/-! ## `hasServerByID` -/

/-- Linear search by id: `for _, item := range slice { if item.ID == val.ID { return true } }`. -/
def hasServerByID : List Server → Server → Bool
  | [], _ => false
  | item :: rest, val => if item.ID = val.ID then true else hasServerByID rest val

/-! ## Remote collaborators -/

/-- The field of `hcloud.Response` the controller reads. -/
structure Response where
  StatusCode : Int
  deriving DecidableEq

/-- What one call of `HetznerClient.FloatingIP.Assign` hands back:
`failure` is `err != nil` (the error text and whatever response came with
it), `success` is `err == nil` with its response. -/
inductive AssignResult where
  | failure (err : String) (response : Option Response)
  | success (response : Response)
  deriving DecidableEq

/-- The field of `wait.Backoff` that bounds the number of attempts.
`Duration` and `Factor` only set the sleep between two attempts. -/
structure Backoff where
  Steps : Int
  deriving DecidableEq

/-- A Go slice value that may be `nil`: `none` is the nil slice. -/
abbrev Slice (α : Type) := Option (List α)

/-- Go `len` on a possibly nil slice. -/
def Slice.len {α : Type} : Slice α → Nat
  | none => 0
  | some l => l.length

/-- The elements a `range` over the slice visits. -/
def Slice.elems {α : Type} : Slice α → List α
  | none => []
  | some l => l

/-- Everything `UpdateFloatingIPs` obtains from outside during one pass.
`assign n f s` is the outcome of the assign call for floating IP `f` and
server `s` issued after `n` earlier assign calls of the pass. -/
structure Env where
  nodeAddressList : Except String (Slice String)
  servers : Slice String → Except String (Slice Server)
  getFloatingIPs : Except String (List FloatingIP)
  assign : Nat → FloatingIP → Server → AssignResult
  Backoff : Backoff

/-- One issued assign call: the floating IP, the target (position in the
running-server slice and the server value passed) and the outcome. -/
structure AssignCall where
  floatingIP : FloatingIP
  target : Nat
  server : Server
  result : AssignResult
  deriving DecidableEq

/-- The errors `UpdateFloatingIPs` builds with `fmt.Errorf`, one constructor
per format string, holding the formatted arguments. -/
inductive PassError where
  | addressList (cause : String)
  | noIPs
  | serverObjects (cause : String)
  | noServers
  | floatingIPs (cause : String)
  | assign (ip : String) (cause : String)
  | statusCode (ip : String) (code : Int)
  deriving DecidableEq

/-- The text of the error, as `fmt.Errorf` formats it. -/
def PassError.message : PassError → String
  | .addressList cause => "could not get addressList for active kubernetes nodes: " ++ cause
  | .noIPs => "could not find any ips"
  | .serverObjects cause => "could not get server objects for addressList: " ++ cause
  | .noServers => "no server objects were found"
  | .floatingIPs cause => "could not get floatingIPs: " ++ cause
  | .assign ip cause => "could not update floating IP \x27" ++ ip ++ "\x27: " ++ cause
  | .statusCode ip code =>
      "could not update floating IP \x27" ++ ip ++ "\x27: Got HTTP Code " ++ toString code
        ++ ", expected 201"

/-- How a pass ends: `nil`, an error, or a nil-pointer dereference
(`server.Name` or `response.StatusCode` on a nil pointer). -/
inductive Return where
  | nil
  | err (e : PassError)
  | nilDeref
  deriving DecidableEq

/-! ## `retry.OnError` -/

/-- Predicate `alwaysRetry`. -/
def alwaysRetry (_ : String) : Bool := true

/-- Modelled from the spec: `retry.OnError` over `wait.ExponentialBackoff`
(k8s client-go, not part of the repository sources): the call is attempted
until it returns no error, every retriable error is retried, at most `steps`
attempts are made, and when the steps are exhausted the last error is
returned.  A non-retriable error is returned at once.  `lastErr` is the
variable of that name; `fn` is the closure, passing its captured state. -/
def onErrorLoop {σ : Type} (retriable : String → Bool) (fn : σ → Option String × σ) :
    Nat → Option String → σ → Option String × σ
  | 0, lastErr, s => (lastErr, s)
  | steps + 1, _, s =>
      match fn s with
      | (none, s1) => (none, s1)
      | (some e, s1) =>
          if retriable e then onErrorLoop retriable fn steps (some e) s1 else (some e, s1)

/-- Modelled from the spec: `retry.OnError(backoff, retriable, fn)`, bounded by
`backoff.Steps` (no attempt at all when `Steps <= 0`). -/
def OnError {σ : Type} (backoff : Backoff) (retriable : String → Bool)
    (fn : σ → Option String × σ) (s : σ) : Option String × σ :=
  onErrorLoop retriable fn backoff.Steps.toNat none s

/-! ## `UpdateFloatingIPs` -/

/-- The variables the retried closure writes: `response`, and the log of the
assign calls issued so far in the pass. -/
structure RetryState where
  response : Option Response
  calls : List AssignCall

/-- The closure `func() error { _, response, err = Assign(ctx, floatingIP, server); return err }`. -/
def assignAttempt (env : Env) (f : FloatingIP) (i : Nat) (server : Server)
    (s : RetryState) : Option String × RetryState :=
  match env.assign s.calls.length f server with
  | .failure e r =>
      (some e, { response := r, calls := s.calls ++ [⟨f, i, server, .failure e r⟩] })
  | .success r =>
      (none, { response := some r, calls := s.calls ++ [⟨f, i, server, .success r⟩] })

/-- The mutable state of the balancing loop: the running servers with their
tracked floating IPs, and the assign calls issued so far. -/
structure PassState where
  servers : List Server
  calls : List AssignCall

/-- Condition `floatingIP.Server == nil || !hasServerByID(runningServers, floatingIP.Server)`. -/
def needsReassign (runningServers : List Server) (f : FloatingIP) : Bool :=
  match f.Server with
  | none => true
  | some s => !hasServerByID runningServers s

/-- The statement `server.PublicNet.FloatingIPs = append(server.PublicNet.FloatingIPs, &hcloud.FloatingIP{})`. -/
def addPlaceholder (server : Server) : Server :=
  { server with PublicNet := { FloatingIPs := server.PublicNet.FloatingIPs ++ [0] } }

/-- Result of one iteration of the loop over the floating IPs: go on with the
next floating IP (`next`, with the floating IP as the provider now holds it),
or return from `UpdateFloatingIPs` (`stop`). -/
inductive Iter where
  | next (st : PassState) (f : FloatingIP)
  | stop (r : Return) (st : PassState)

/-- The body of the `if` in the loop: choose the target, assign with retry,
check error and status code, track the placeholder.  A successful assign
(no error, status 201) makes the chosen server the floating IP's server. -/
def reassign (env : Env) (f : FloatingIP) (st : PassState) : Iter :=
  match findServerWithLowestFIPAt st.servers with
  | none => .stop .nilDeref st
  | some (i, server) =>
      match OnError env.Backoff alwaysRetry (assignAttempt env f i server)
          { response := none, calls := st.calls } with
      | (some e, rs) => .stop (.err (.assign f.IP e)) { st with calls := rs.calls }
      | (none, rs) =>
          match rs.response with
          | none => .stop .nilDeref { st with calls := rs.calls }
          | some response =>
              if response.StatusCode ≠ 201 then
                .stop (.err (.statusCode f.IP response.StatusCode)) { st with calls := rs.calls }
              else
                .next { servers := st.servers.set i (addPlaceholder server), calls := rs.calls }
                  { f with Server := some server }

/-- What a pass leaves behind: its return value, the running servers as
tracked at the end, the assign calls issued (in order), and the floating IPs
with the server each one is assigned to at the provider after the pass. -/
structure PassResult where
  ret : Return
  servers : List Server
  calls : List AssignCall
  floatingIPs : List FloatingIP

/-- The loop `for _, floatingIP := range floatingIPs { ... }` followed by `return nil`. -/
def balance (env : Env) : List FloatingIP → PassState → PassResult
  | [], st => { ret := .nil, servers := st.servers, calls := st.calls, floatingIPs := [] }
  | f :: rest, st =>
      if needsReassign st.servers f then
        match reassign env f st with
        | .stop r st1 =>
            { ret := r, servers := st1.servers, calls := st1.calls, floatingIPs := f :: rest }
        | .next st1 f1 =>
            let res := balance env rest st1
            { res with floatingIPs := f1 :: res.floatingIPs }
      else
        let res := balance env rest st
        { res with floatingIPs := f :: res.floatingIPs }

/-- The early `return fmt.Errorf(...)` before the loop: nothing was assigned. -/
def failEarly (e : PassError) : PassResult :=
  { ret := .err e, servers := [], calls := [], floatingIPs := [] }

/-- One reconciliation pass. -/
def UpdateFloatingIPs (env : Env) : PassResult :=
  match env.nodeAddressList with
  | .error e => failEarly (.addressList e)
  | .ok nodeAddressList =>
      if nodeAddressList = none ∨ nodeAddressList.len < 1 then failEarly .noIPs
      else
        match env.servers nodeAddressList with
        | .error e => failEarly (.serverObjects e)
        | .ok runningServers =>
            if runningServers = none ∨ runningServers.len < 1 then failEarly .noServers
            else
              match env.getFloatingIPs with
              | .error e => failEarly (.floatingIPs e)
              | .ok floatingIPs =>
                  balance env floatingIPs { servers := runningServers.elems, calls := [] }

/-! ## Notions used to state the properties -/

/-- The ids of a slice of servers, in order. -/
def serverIDs (l : List Server) : List Int := l.map (fun s => s.ID)

/-- The snapshot a pass works on: address resolution and server matching
succeed with non-empty results `running`, and the floating-IP source yields
`fips`. -/
def Resolves (env : Env) (running : List Server) (fips : List FloatingIP) : Prop :=
  ∃ addrs : List String, addrs ≠ [] ∧ env.nodeAddressList = .ok (some addrs) ∧
    env.servers (some addrs) = .ok (some running) ∧ running ≠ [] ∧
    env.getFloatingIPs = .ok fips

/-- The error of an assign outcome, `none` when the call returned no error. -/
def AssignResult.err? : AssignResult → Option String
  | .failure e _ => some e
  | .success _ => none

/-- The log entries of `m` consecutive attempts for floating IP `f` and target
`(i, server)`, the first one issued after `n` earlier calls. -/
def attemptLog (env : Env) (f : FloatingIP) (i : Nat) (server : Server) :
    Nat → Nat → List AssignCall
  | _, 0 => []
  | n, m + 1 => ⟨f, i, server, env.assign n f server⟩ :: attemptLog env f i server (n + 1) m

/-- The calls an iteration has issued when it ends. -/
def Iter.calls : Iter → List AssignCall
  | .next st _ => st.calls
  | .stop _ st => st.calls

/-- The running servers track `c + 1` floating IPs at the first `m` positions
and `c` at the others. -/
def Filled (servers : List Server) (c m : Nat) : Prop :=
  ∀ j t, servers[j]? = some t → fipCount t = if j < m then c + 1 else c

/-- Round-robin order of a sequence of targets among `n` servers: a position
is targeted again only after every position below `n` has been targeted. -/
def RoundRobin (n : Nat) (targets : List Nat) : Prop :=
  ∀ j, j < targets.length → targets.getD j 0 ∈ targets.take j →
    ∀ p, p < n → p ∈ targets.take j

instance (n : Nat) (targets : List Nat) : Decidable (RoundRobin n targets) := by
  unfold RoundRobin; infer_instance

/-- The largest tracked floating-IP count among the servers (0 for none). -/
def maxCount : List Server → Nat
  | [] => 0
  | s :: rest => max (fipCount s) (maxCount rest)

/-- The smallest tracked floating-IP count among the servers (0 for none). -/
def minCount : List Server → Nat
  | [] => 0
  | [s] => fipCount s
  | s :: t :: rest => min (fipCount s) (minCount (t :: rest))

/-- The spread of the tracked counts: largest minus smallest. -/
def spread (servers : List Server) : Nat := maxCount servers - minCount servers

/-- No two servers differ by more than `d` in their tracked counts. -/
def Within (d : Nat) (servers : List Server) : Prop :=
  ∀ s ∈ servers, ∀ t ∈ servers, fipCount s ≤ fipCount t + d

/-! ## `Run` -/

/-- What the `select` in `Run` can receive: a tick of the 30 s ticker, with
the outcome of the pass that is run for it (`none` is `nil`), or the
cancellation of the context. -/
inductive Event where
  | tick (pass : Option PassError)
  | done
  deriving DecidableEq

/-- The lines `Run` logs. -/
inductive LogEntry where
  | initialFailed (e : PassError)
  | initialised
  | reconciliationFailed (e : PassError)
  | shuttingDown
  deriving DecidableEq

/-- Where `Run` is: blocked in the `select` (`waiting`) or returned with `err`.
`passes` counts the calls of `UpdateFloatingIPs` made so far. -/
inductive RunState where
  | waiting (passes : Nat) (log : List LogEntry)
  | returned (err : Option PassError) (passes : Nat) (log : List LogEntry)
  deriving DecidableEq

/-- The initial reconciliation attempt, whose outcome is `initial`, up to the
first `select`. -/
def Run.start (initial : Option PassError) : RunState :=
  match initial with
  | some e => .waiting 1 [.initialFailed e]
  | none => .waiting 1 [.initialised]

/-- One round of the `for { select { ... } }` loop. -/
def Run.step : RunState → Event → RunState
  | .waiting n log, .done => .returned none n (log ++ [.shuttingDown])
  | .waiting n log, .tick (some e) => .waiting (n + 1) (log ++ [.reconciliationFailed e])
  | .waiting n log, .tick none => .waiting (n + 1) log
  | .returned err n log, _ => .returned err n log

/-- The state of `Run` after the initial pass and the given events. -/
def Run (initial : Option PassError) (events : List Event) : RunState :=
  events.foldl Run.step (Run.start initial)

/-! ## Concrete snapshots -/

/-- An environment in which resolution and matching succeed with the given
running servers and floating IPs. -/
def snapshotEnv (running : List Server) (fips : List FloatingIP)
    (assign : Nat → FloatingIP → Server → AssignResult) (steps : Int) : Env :=
  { nodeAddressList := .ok (some ["10.0.0.1"])
    servers := fun _ => .ok (some running)
    getFloatingIPs := .ok fips
    assign := assign
    Backoff := ⟨steps⟩ }

/-- A running server tracking no floating IP. -/
def server1 : Server := ⟨1, "server-1", ⟨[]⟩⟩

/-- A running server tracking two floating IPs. -/
def server2 : Server := ⟨2, "server-2", ⟨[11, 12]⟩⟩

/-- A second running server tracking no floating IP. -/
def server3 : Server := ⟨3, "server-3", ⟨[]⟩⟩

/-- A server that is not running any more. -/
def serverGone : Server := ⟨9, "server-9", ⟨[]⟩⟩

/-- Three floating IPs: unassigned, on a server that is gone, on a running server. -/
def fipsStale : List FloatingIP :=
  [⟨21, "1.1.1.1", none⟩, ⟨22, "2.2.2.2", some serverGone⟩, ⟨23, "3.3.3.3", some server2⟩]

/-- Two unassigned floating IPs. -/
def fipsTwo : List FloatingIP := [⟨21, "1.1.1.1", none⟩, ⟨22, "2.2.2.2", none⟩]

/-- Three unassigned floating IPs with ids 1, 2, 3. -/
def fipsThree : List FloatingIP :=
  [⟨1, "1.1.1.1", none⟩, ⟨2, "2.2.2.2", none⟩, ⟨3, "3.3.3.3", none⟩]

/-- Every assign call answers 201. -/
def assignCreated : Nat → FloatingIP → Server → AssignResult :=
  fun _ _ _ => .success ⟨201⟩

/-- Running servers tracking 0 and 2, floating IPs `fipsStale`. -/
def envStale : Env := snapshotEnv [server1, server2] fipsStale assignCreated 5

/-- Running servers tracking 0 and 2, two floating IPs to assign. -/
def envUneven : Env := snapshotEnv [server1, server2] fipsTwo assignCreated 5

/-- Running servers tracking 0 and 0, two floating IPs to assign. -/
def envEven : Env := snapshotEnv [server1, server3] fipsTwo assignCreated 5

/-- Scenario B: one running server, three unassigned floating IPs, the assign
call for the floating IP with id 2 answered 503 on every attempt, 3 steps. -/
def envScenarioB : Env :=
  snapshotEnv [server1] fipsThree
    (fun _ f _ => if f.ID = 2 then .failure "503" none else .success ⟨201⟩) 3

/-- One running server, one unassigned floating IP, the assign call failing
twice before it answers 201, 5 steps. -/
def envRecovers : Env :=
  snapshotEnv [server1] [⟨1, "1.2.3.4", none⟩]
    (fun n _ _ => if n < 2 then .failure "503" none else .success ⟨201⟩) 5

/-- One running server, one unassigned floating IP, the assign call failing on
every attempt with the attempt number as error text, 3 steps. -/
def envExhausted : Env :=
  snapshotEnv [server1] [⟨1, "1.2.3.4", none⟩]
    (fun n _ _ => .failure (toString n) none) 3

/-- One running server, one unassigned floating IP, the assign call failing
once and then answering 200. -/
def envStatus200 : Env :=
  snapshotEnv [server1] [⟨1, "1.2.3.4", none⟩]
    (fun n _ _ => if n < 1 then .failure "503" none else .success ⟨200⟩) 5

/-- No ready node has an address: the resolved list is empty. -/
def envNoAddresses : Env :=
  { envStale with nodeAddressList := .ok (some []) }

/-- No server matches the resolved addresses: the matched list is nil. -/
def envNoServers : Env :=
  { envStale with servers := fun _ => .ok none }

/-- The server listing fails. -/
def envServers503 : Env :=
  { envScenarioB with servers := fun _ => .error "503" }

/-- The server listing fails and `controller.servers` hands back a nil slice
without an error. -/
def envServersNil : Env :=
  { envScenarioB with servers := fun _ => .ok none }

/-- The floating-IP listing fails. -/
def envFloatingIPs503 : Env :=
  { envScenarioB with getFloatingIPs := .error "503" }

/-- The floating IPs of `fipsStale` as an error-free pass leaves them, on
running servers that were listed again. -/
def envSecondPass : Env :=
  snapshotEnv [server1, server2] (UpdateFloatingIPs envStale).floatingIPs
    (fun _ _ _ => .failure "unreachable" none) 5

/-- Running servers tracking 0 and 0, one floating IP to assign. -/
def envOne : Env := snapshotEnv [server1, server3] [⟨21, "1.1.1.1", none⟩] assignCreated 5

/-! ## Lemmas on `findLoop` -/

theorem findLoop_le_best (rest : List Server) (i : Nat) (best : Nat × Server) :
    fipCount (findLoop rest i best).2 ≤ fipCount best.2 := by
  induction rest generalizing i best with
  | nil => simp [findLoop]
  | cons s rest ih =>
    unfold findLoop
    split
    · rename_i h
      exact le_trans (ih (i + 1) (i, s)) (le_of_lt h)
    · exact ih (i + 1) best

theorem findLoop_le_mem (rest : List Server) (i : Nat) (best : Nat × Server) :
    ∀ t ∈ rest, fipCount (findLoop rest i best).2 ≤ fipCount t := by
  induction rest generalizing i best with
  | nil => simp
  | cons s rest ih =>
    intro t ht
    unfold findLoop
    rcases List.mem_cons.mp ht with rfl | ht
    · split
      · exact findLoop_le_best rest (i + 1) (i, t)
      · rename_i h
        exact le_trans (findLoop_le_best rest (i + 1) best) (not_lt.mp h)
    · split
      · exact ih (i + 1) (i, s) t ht
      · exact ih (i + 1) best t ht

/-- Either the candidate survives the loop, or the result is an element of the
remaining slice that is strictly below the candidate and strictly below every
element before it. -/
theorem findLoop_first (rest : List Server) (i : Nat) (best : Nat × Server) :
    findLoop rest i best = best ∨
    ∃ k, (findLoop rest i best).1 = i + k ∧ rest[k]? = some (findLoop rest i best).2 ∧
      fipCount (findLoop rest i best).2 < fipCount best.2 ∧
      ∀ j t, j < k → rest[j]? = some t → fipCount (findLoop rest i best).2 < fipCount t := by
  induction rest generalizing i best with
  | nil => left; simp [findLoop]
  | cons s rest ih =>
    unfold findLoop
    split
    · rename_i h
      right
      rcases ih (i + 1) (i, s) with heq | ⟨k, hk1, hk2, hk3, hk4⟩
      · refine ⟨0, ?_, ?_, ?_, ?_⟩
        · rw [heq]; rfl
        · rw [heq]; simp
        · rw [heq]; exact h
        · intro j t hj; omega
      · refine ⟨k + 1, ?_, ?_, ?_, ?_⟩
        · rw [hk1]; omega
        · simpa using hk2
        · exact lt_trans hk3 h
        · intro j t hj hjt
          cases j with
          | zero =>
            simp at hjt
            subst hjt
            exact hk3
          | succ j =>
            simp at hjt
            exact hk4 j t (by omega) hjt
    · rename_i h
      rcases ih (i + 1) best with heq | ⟨k, hk1, hk2, hk3, hk4⟩
      · left; exact heq
      · right
        refine ⟨k + 1, ?_, ?_, hk3, ?_⟩
        · rw [hk1]; omega
        · simpa using hk2
        · intro j t hj hjt
          cases j with
          | zero =>
            simp at hjt
            subst hjt
            exact lt_of_lt_of_le hk3 (not_lt.mp h)
          | succ j =>
            simp at hjt
            exact hk4 j t (by omega) hjt

/-- The result of `findServerWithLowestFIPAt` on a non-empty slice: the first
position holding a minimal tracked count. -/
theorem findServerWithLowestFIPAt_spec (servers : List Server) (h : servers ≠ []) :
    ∃ i s, findServerWithLowestFIPAt servers = some (i, s) ∧
      findServerWithLowestFIP servers = some s ∧
      servers[i]? = some s ∧
      (∀ t ∈ servers, fipCount s ≤ fipCount t) ∧
      (∀ j t, j < i → servers[j]? = some t → fipCount s < fipCount t) := by
  cases servers with
  | nil => exact absurd rfl h
  | cons s0 tl =>
    refine ⟨(findLoop (s0 :: tl) 0 (0, s0)).1, (findLoop (s0 :: tl) 0 (0, s0)).2,
      rfl, rfl, ?_, findLoop_le_mem (s0 :: tl) 0 (0, s0), ?_⟩
    · rcases findLoop_first (s0 :: tl) 0 (0, s0) with heq | ⟨k, hk1, hk2, _, _⟩
      · rw [heq]; simp
      · rw [hk1]; simpa using hk2
    · rcases findLoop_first (s0 :: tl) 0 (0, s0) with heq | ⟨k, hk1, _, _, hk4⟩
      · rw [heq]; intro j t hj; simp at hj
      · rw [hk1]; intro j t hj hjt
        exact hk4 j t (by omega) hjt

/-! ## Lemmas on the balancing loop -/

theorem hasServerByID_iff (l : List Server) (v : Server) :
    hasServerByID l v = true ↔ v.ID ∈ serverIDs l := by
  induction l with
  | nil => simp [hasServerByID, serverIDs]
  | cons a l ih =>
    unfold hasServerByID
    by_cases h : a.ID = v.ID
    · simp [h, serverIDs]
    · simp only [h, if_false, ih]
      simp only [serverIDs, List.map_cons, List.mem_cons]
      constructor
      · intro hm; exact Or.inr hm
      · rintro (hm | hm)
        · exact absurd hm.symm h
        · exact hm

theorem hasServerByID_congr {l1 l2 : List Server} (h : serverIDs l1 = serverIDs l2)
    (v : Server) : hasServerByID l1 v = hasServerByID l2 v := by
  rw [Bool.eq_iff_iff, hasServerByID_iff, hasServerByID_iff, h]

theorem needsReassign_congr {l1 l2 : List Server} (h : serverIDs l1 = serverIDs l2)
    (f : FloatingIP) : needsReassign l1 f = needsReassign l2 f := by
  unfold needsReassign
  cases f.Server with
  | none => rfl
  | some s => simp only [hasServerByID_congr h s]

theorem serverIDs_set_addPlaceholder (servers : List Server) (i : Nat) (s : Server)
    (h : servers[i]? = some s) :
    serverIDs (servers.set i (addPlaceholder s)) = serverIDs servers := by
  induction servers generalizing i with
  | nil => simp
  | cons a l ih =>
    cases i with
    | zero =>
      simp at h
      subst h
      simp [serverIDs, addPlaceholder]
    | succ i =>
      simp at h
      have := ih i h
      simp only [serverIDs] at this
      simp [serverIDs, this]

theorem findServerWithLowestFIPAt_getElem (servers : List Server) (i : Nat) (s : Server)
    (h : findServerWithLowestFIPAt servers = some (i, s)) : servers[i]? = some s := by
  have hne : servers ≠ [] := by
    intro h0; subst h0; simp [findServerWithLowestFIPAt] at h
  obtain ⟨i1, s1, h1, _, h3, _⟩ := findServerWithLowestFIPAt_spec servers hne
  rw [h1] at h
  cases h
  exact h3

/-- What a `next` iteration did: the chosen server is an element of the slice,
it got the placeholder, and the floating IP now points at it. -/
theorem reassign_next (env : Env) (f f1 : FloatingIP) (st st1 : PassState)
    (h : reassign env f st = .next st1 f1) :
    ∃ i server, findServerWithLowestFIPAt st.servers = some (i, server) ∧
      st1.servers = st.servers.set i (addPlaceholder server) ∧
      f1 = { f with Server := some server } := by
  unfold reassign at h
  split at h
  · cases h
  · rename_i i server hfind
    split at h
    · cases h
    · split at h
      · cases h
      · split at h
        · cases h
        · cases h
          exact ⟨i, server, hfind, rfl, rfl⟩

/-- A `stop` iteration leaves the tracked servers as they were. -/
theorem reassign_stop_servers (env : Env) (f : FloatingIP) (st st1 : PassState) (r : Return)
    (h : reassign env f st = .stop r st1) : st1.servers = st.servers := by
  unfold reassign at h
  split at h
  · cases h; rfl
  · split at h
    · cases h; rfl
    · split at h
      · cases h; rfl
      · split at h
        · cases h; rfl
        · cases h

theorem reassign_next_ids (env : Env) (f f1 : FloatingIP) (st st1 : PassState)
    (h : reassign env f st = .next st1 f1) : serverIDs st1.servers = serverIDs st.servers := by
  obtain ⟨i, server, hfind, hs, _⟩ := reassign_next env f f1 st st1 h
  rw [hs]
  exact serverIDs_set_addPlaceholder _ _ _ (findServerWithLowestFIPAt_getElem _ _ _ hfind)

/-- The loop never changes which servers are in the running set. -/
theorem balance_ids (env : Env) (fips : List FloatingIP) (st : PassState) :
    serverIDs (balance env fips st).servers = serverIDs st.servers := by
  induction fips generalizing st with
  | nil => rfl
  | cons f rest ih =>
    unfold balance
    split
    · cases h : reassign env f st with
      | stop r st1 => simp only [reassign_stop_servers env f st st1 r h]
      | next st1 f1 =>
        simp only
        rw [ih st1]
        exact reassign_next_ids env f f1 st st1 h
    · exact ih st

/-- The loop keeps the floating IPs (id and address) and their order. -/
theorem balance_floatingIPs_same (env : Env) (fips : List FloatingIP) (st : PassState) :
    (balance env fips st).floatingIPs.map (fun f => (f.ID, f.IP))
      = fips.map (fun f => (f.ID, f.IP)) := by
  induction fips generalizing st with
  | nil => rfl
  | cons f rest ih =>
    unfold balance
    split
    · cases h : reassign env f st with
      | stop r st1 => rfl
      | next st1 f1 =>
        obtain ⟨i, server, _, _, hf⟩ := reassign_next env f f1 st st1 h
        simp only [List.map_cons, ih st1, hf]
    · simp only [List.map_cons, ih st]

/-- An iteration never stops the pass with `nil`. -/
theorem reassign_stop_ne_nil (env : Env) (f : FloatingIP) (st st1 : PassState) (r : Return)
    (h : reassign env f st = .stop r st1) : r ≠ .nil := by
  unfold reassign at h
  split at h
  · cases h; simp
  · split at h
    · cases h; simp
    · split at h
      · cases h; simp
      · split at h
        · cases h; simp
        · cases h

theorem needsReassign_of_getElem (servers : List Server) (i : Nat) (server : Server)
    (f : FloatingIP) (h : servers[i]? = some server) :
    needsReassign servers { f with Server := some server } = false := by
  have hmem : server ∈ servers := List.getElem?_mem h
  have : hasServerByID servers server = true := by
    rw [hasServerByID_iff]
    exact List.mem_map.mpr ⟨server, hmem, rfl⟩
  simp [needsReassign, this]

theorem balance_cons_skip (env : Env) (f : FloatingIP) (rest : List FloatingIP)
    (st : PassState) (h : needsReassign st.servers f = false) :
    balance env (f :: rest) st
      = { balance env rest st with floatingIPs := f :: (balance env rest st).floatingIPs } := by
  rw [balance]; simp [h]

theorem balance_cons_stop (env : Env) (f : FloatingIP) (rest : List FloatingIP)
    (st st1 : PassState) (r : Return) (h : needsReassign st.servers f = true)
    (hr : reassign env f st = .stop r st1) :
    balance env (f :: rest) st
      = { ret := r, servers := st1.servers, calls := st1.calls, floatingIPs := f :: rest } := by
  rw [balance]; simp [h, hr]

theorem balance_cons_next (env : Env) (f f1 : FloatingIP) (rest : List FloatingIP)
    (st st1 : PassState) (h : needsReassign st.servers f = true)
    (hr : reassign env f st = .next st1 f1) :
    balance env (f :: rest) st
      = { balance env rest st1 with floatingIPs := f1 :: (balance env rest st1).floatingIPs } := by
  rw [balance]; simp [h, hr]

/-- After a loop that returned `nil`, no floating IP needs reassignment. -/
theorem balance_nil_assigned (env : Env) (fips : List FloatingIP) (st : PassState)
    (h : (balance env fips st).ret = .nil) :
    ∀ f ∈ (balance env fips st).floatingIPs, needsReassign st.servers f = false := by
  induction fips generalizing st with
  | nil => intro f hf; simp [balance] at hf
  | cons f rest ih =>
    cases hneed : needsReassign st.servers f with
    | true =>
      cases hr : reassign env f st with
      | stop r st1 =>
        rw [balance_cons_stop env f rest st st1 r hneed hr] at h
        exact absurd h (reassign_stop_ne_nil env f st st1 r hr)
      | next st1 f1 =>
        rw [balance_cons_next env f f1 rest st st1 hneed hr] at h ⊢
        obtain ⟨i, server, hfind, hs, hf⟩ := reassign_next env f f1 st st1 hr
        have hids := reassign_next_ids env f f1 st st1 hr
        intro g hg
        simp only [List.mem_cons] at hg
        rcases hg with rfl | hg
        · rw [hf]
          exact needsReassign_of_getElem _ _ _ _ (findServerWithLowestFIPAt_getElem _ _ _ hfind)
        · rw [← needsReassign_congr hids g]
          exact ih st1 h g hg
    | false =>
      rw [balance_cons_skip env f rest st hneed] at h ⊢
      intro g hg
      simp only [List.mem_cons] at hg
      rcases hg with rfl | hg
      · exact hneed
      · exact ih st h g hg

/-- When no floating IP needs reassignment the loop does nothing. -/
theorem balance_noop (env : Env) (fips : List FloatingIP) (st : PassState)
    (h : ∀ f ∈ fips, needsReassign st.servers f = false) :
    balance env fips st
      = { ret := .nil, servers := st.servers, calls := st.calls, floatingIPs := fips } := by
  induction fips with
  | nil => rfl
  | cons f rest ih =>
    unfold balance
    have hf : needsReassign st.servers f = false := h f (List.mem_cons_self _ _)
    simp only [hf]
    rw [ih (fun g hg => h g (List.mem_cons_of_mem _ hg))]
    simp

/-- On such a snapshot the pass is the balancing loop started on it. -/
theorem UpdateFloatingIPs_of_resolves (env : Env) (running : List Server)
    (fips : List FloatingIP) (h : Resolves env running fips) :
    UpdateFloatingIPs env = balance env fips { servers := running, calls := [] } := by
  obtain ⟨addrs, ha, h1, h2, hr, h3⟩ := h
  have hla : ¬ ((some addrs : Slice String) = none ∨ Slice.len (some addrs) < 1) := by
    simp only [Slice.len, reduceCtorEq, false_or, not_lt]
    exact Nat.one_le_iff_ne_zero.mpr (fun h0 => ha (List.length_eq_zero.mp h0))
  have hlr : ¬ ((some running : Slice Server) = none ∨ Slice.len (some running) < 1) := by
    simp only [Slice.len, reduceCtorEq, false_or, not_lt]
    exact Nat.one_le_iff_ne_zero.mpr (fun h0 => hr (List.length_eq_zero.mp h0))
  unfold UpdateFloatingIPs
  simp only [h1, h2, h3, hla, hlr, if_false, Slice.elems]

theorem resolves_snapshotEnv (running : List Server) (fips : List FloatingIP)
    (assign : Nat → FloatingIP → Server → AssignResult) (steps : Int) (h : running ≠ []) :
    Resolves (snapshotEnv running fips assign steps) running fips :=
  ⟨["10.0.0.1"], by simp, rfl, rfl, h, rfl⟩

/-! ## Lemmas on the retried assign call -/

theorem attemptLog_length (env : Env) (f : FloatingIP) (i : Nat) (server : Server)
    (n m : Nat) : (attemptLog env f i server n m).length = m := by
  induction m generalizing n with
  | zero => rfl
  | succ m ih => simp [attemptLog, ih]

/-- When every one of the `steps` attempts fails, all of them are made and the
error of the last one is returned. -/
theorem onErrorLoop_all_fail (env : Env) (f : FloatingIP) (i : Nat) (server : Server)
    (steps : Nat) (lastErr : Option String) (rs : RetryState)
    (hfail : ∀ k, k < steps → (env.assign (rs.calls.length + k) f server).err?.isSome = true) :
    (onErrorLoop alwaysRetry (assignAttempt env f i server) steps lastErr rs).2.calls
        = rs.calls ++ attemptLog env f i server rs.calls.length steps ∧
    (onErrorLoop alwaysRetry (assignAttempt env f i server) steps lastErr rs).1
        = (match steps with
           | 0 => lastErr
           | m + 1 => (env.assign (rs.calls.length + m) f server).err?) := by
  induction steps generalizing lastErr rs with
  | zero => simp [onErrorLoop, attemptLog]
  | succ steps ih =>
    have h0 := hfail 0 (Nat.succ_pos _)
    rw [Nat.add_zero] at h0
    cases hres : env.assign rs.calls.length f server with
    | success r => rw [hres] at h0; simp [AssignResult.err?] at h0
    | failure e r =>
      have hstep : assignAttempt env f i server rs
          = (some e, { response := r, calls := rs.calls ++ [⟨f, i, server, .failure e r⟩] }) := by
        simp [assignAttempt, hres]
      have hlen : (rs.calls ++ [(⟨f, i, server, .failure e r⟩ : AssignCall)]).length
          = rs.calls.length + 1 := by simp
      have ih1 := ih (some e)
        { response := r, calls := rs.calls ++ [⟨f, i, server, .failure e r⟩] }
        (by
          intro k hk
          have := hfail (k + 1) (by omega)
          simp only [hlen]
          rw [show rs.calls.length + 1 + k = rs.calls.length + (k + 1) by omega]
          exact this)
      simp only [hlen] at ih1
      simp only [onErrorLoop, hstep, alwaysRetry, if_true]
      refine ⟨?_, ?_⟩
      · rw [ih1.1]; simp [attemptLog, hres]
      · rw [ih1.2]
        cases steps with
        | zero => simp [hres, AssignResult.err?]
        | succ m =>
          simp only
          rw [show rs.calls.length + 1 + m = rs.calls.length + (m + 1) by omega]

/-- When attempt `j` (counted from 0, within the steps) is the first that
returns no error, exactly `j + 1` attempts are made and its response is kept. -/
theorem onErrorLoop_first_success (env : Env) (f : FloatingIP) (i : Nat) (server : Server)
    (j : Nat) (steps : Nat) (lastErr : Option String) (rs : RetryState) (r : Response)
    (hj : j < steps)
    (hfail : ∀ k, k < j → (env.assign (rs.calls.length + k) f server).err?.isSome = true)
    (hok : env.assign (rs.calls.length + j) f server = .success r) :
    onErrorLoop alwaysRetry (assignAttempt env f i server) steps lastErr rs
      = (none, { response := some r,
                 calls := rs.calls ++ attemptLog env f i server rs.calls.length (j + 1) }) := by
  induction j generalizing steps lastErr rs with
  | zero =>
    obtain ⟨m, rfl⟩ : ∃ m, steps = m + 1 := ⟨steps - 1, by omega⟩
    rw [Nat.add_zero] at hok
    simp [onErrorLoop, assignAttempt, hok, attemptLog]
  | succ j ih =>
    obtain ⟨m, rfl⟩ : ∃ m, steps = m + 1 := ⟨steps - 1, by omega⟩
    have h0 := hfail 0 (Nat.succ_pos _)
    rw [Nat.add_zero] at h0
    cases hres : env.assign rs.calls.length f server with
    | success r0 => rw [hres] at h0; simp [AssignResult.err?] at h0
    | failure e r0 =>
      have hstep : assignAttempt env f i server rs
          = (some e, { response := r0, calls := rs.calls ++ [⟨f, i, server, .failure e r0⟩] }) := by
        simp [assignAttempt, hres]
      have hlen : (rs.calls ++ [(⟨f, i, server, .failure e r0⟩ : AssignCall)]).length
          = rs.calls.length + 1 := by simp
      have ih1 := ih m (some e)
        { response := r0, calls := rs.calls ++ [⟨f, i, server, .failure e r0⟩] }
        (by omega)
        (by
          intro k hk
          have := hfail (k + 1) (by omega)
          simp only [hlen]
          rw [show rs.calls.length + 1 + k = rs.calls.length + (k + 1) by omega]
          exact this)
        (by
          simp only [hlen]
          rw [show rs.calls.length + 1 + j = rs.calls.length + (j + 1) by omega]
          exact hok)
      simp only [hlen] at ih1
      simp only [onErrorLoop, hstep, alwaysRetry, if_true]
      rw [ih1]
      simp [attemptLog, hres]

/-- The iteration when every attempt within the steps fails. -/
theorem reassign_all_fail (env : Env) (f : FloatingIP) (st : PassState) (i : Nat)
    (server : Server) (m : Nat) (e : String)
    (hfind : findServerWithLowestFIPAt st.servers = some (i, server))
    (hsteps : env.Backoff.Steps.toNat = m + 1)
    (hfail : ∀ k, k < m + 1 → (env.assign (st.calls.length + k) f server).err?.isSome = true)
    (hlast : (env.assign (st.calls.length + m) f server).err? = some e) :
    reassign env f st
      = .stop (.err (.assign f.IP e))
          { servers := st.servers,
            calls := st.calls ++ attemptLog env f i server st.calls.length (m + 1) } := by
  have h := onErrorLoop_all_fail env f i server (m + 1) none
    { response := none, calls := st.calls } hfail
  simp only [hlast] at h
  unfold reassign
  simp only [hfind, OnError, hsteps]
  generalize onErrorLoop alwaysRetry (assignAttempt env f i server) (m + 1) none
    { response := none, calls := st.calls } = res at h
  obtain ⟨err, rs⟩ := res
  obtain ⟨h1, h2⟩ := h
  simp only at h1 h2
  subst h2
  simp only [h1]

/-- The iteration when attempt `j` is the first to return no error. -/
theorem reassign_first_success (env : Env) (f : FloatingIP) (st : PassState) (i : Nat)
    (server : Server) (j : Nat) (r : Response)
    (hfind : findServerWithLowestFIPAt st.servers = some (i, server))
    (hj : j < env.Backoff.Steps.toNat)
    (hfail : ∀ k, k < j → (env.assign (st.calls.length + k) f server).err?.isSome = true)
    (hok : env.assign (st.calls.length + j) f server = .success r) :
    reassign env f st
      = if r.StatusCode ≠ 201 then
          .stop (.err (.statusCode f.IP r.StatusCode))
            { servers := st.servers,
              calls := st.calls ++ attemptLog env f i server st.calls.length (j + 1) }
        else
          .next
            { servers := st.servers.set i (addPlaceholder server),
              calls := st.calls ++ attemptLog env f i server st.calls.length (j + 1) }
            { f with Server := some server } := by
  have h := onErrorLoop_first_success env f i server j env.Backoff.Steps.toNat none
    { response := none, calls := st.calls } r hj hfail hok
  unfold reassign
  simp only [hfind, OnError, h]

/-! ## Lemmas on the order of the targets -/

theorem findServerWithLowestFIPAt_filled (servers : List Server) (c m : Nat)
    (hm : m < servers.length) (hpat : Filled servers c m) :
    ∃ server, findServerWithLowestFIPAt servers = some (m, server) ∧
      servers[m]? = some server := by
  have hne : servers ≠ [] := by
    intro h0; subst h0; simp at hm
  obtain ⟨i, s, hfind, _, hget, hmin, hfirst⟩ := findServerWithLowestFIPAt_spec servers hne
  have hgm : servers[m]? = some servers[m] := List.getElem?_eq_getElem hm
  have hcm : fipCount servers[m] = c := by
    have := hpat m _ hgm
    simpa using this
  have hle : fipCount s ≤ c := by
    have := hmin servers[m] (List.getElem_mem hm)
    omega
  have hcs := hpat i s hget
  have him : ¬ i < m := by
    intro hlt
    rw [if_pos hlt] at hcs
    omega
  have hmi : ¬ m < i := by
    intro hlt
    have := hfirst m _ hlt hgm
    rw [if_neg him] at hcs
    omega
  have : i = m := by omega
  subst this
  exact ⟨s, hfind, hget⟩

theorem filled_set (servers : List Server) (c m : Nat) (server : Server)
    (hget : servers[m]? = some server) (hpat : Filled servers c m) :
    Filled (servers.set m (addPlaceholder server)) c (m + 1) := by
  intro j t hj
  rw [List.getElem?_set] at hj
  by_cases hmj : m = j
  · subst hmj
    have hlt : m < servers.length := by
      rcases List.getElem?_eq_some.mp hget with ⟨h, _⟩
      exact h
    simp only [if_true, hlt] at hj
    cases hj
    have := hpat m server hget
    simp only [lt_irrefl, if_false] at this
    simp [fipCount, addPlaceholder] at this ⊢
    exact this
  · simp only [hmj, if_false] at hj
    have := hpat j t hj
    rw [this]
    by_cases h1 : j < m
    · simp [h1, Nat.lt_succ_of_lt h1]
    · have h2 : ¬ j < m + 1 := by omega
      simp [h1, h2]

/-- With every assign call succeeding at once, servers filled up to position
`m` and no more floating IPs to reassign than servers left, the loop targets
the positions `m`, `m + 1`, ... in turn. -/
theorem balance_targets_in_turn (env : Env) (fips : List FloatingIP) (st : PassState)
    (c m : Nat) (hsteps : 0 < env.Backoff.Steps.toNat)
    (hok : ∀ n f s, env.assign n f s = .success ⟨201⟩)
    (hpat : Filled st.servers c m)
    (hk : m + (fips.filter (needsReassign st.servers)).length ≤ st.servers.length) :
    (balance env fips st).ret = .nil ∧
    (balance env fips st).calls.map (fun a => a.target)
      = st.calls.map (fun a => a.target)
          ++ List.range' m (fips.filter (needsReassign st.servers)).length ∧
    (∀ a ∈ (balance env fips st).calls, a ∈ st.calls ∨ a.result = .success ⟨201⟩) := by
  induction fips generalizing st m with
  | nil =>
    refine ⟨rfl, by simp [balance], ?_⟩
    intro a ha
    exact Or.inl ha
  | cons f rest ih =>
    cases hneed : needsReassign st.servers f with
    | false =>
      rw [balance_cons_skip env f rest st hneed]
      simp only [List.filter_cons, hneed] at hk ⊢
      exact ih st m hpat hk
    | true =>
      simp only [List.filter_cons, hneed, if_true, List.length_cons] at hk ⊢
      obtain ⟨server, hfind, hget⟩ :=
        findServerWithLowestFIPAt_filled st.servers c m (by omega) hpat
      have hr := reassign_first_success env f st m server 0 ⟨201⟩ hfind hsteps
        (by intro k hk0; omega) (hok _ _ _)
      simp only [ne_eq, not_true_eq_false, if_false] at hr
      rw [balance_cons_next env f _ rest st _ hneed hr]
      have hids : serverIDs (st.servers.set m (addPlaceholder server)) = serverIDs st.servers :=
        serverIDs_set_addPlaceholder _ _ _ hget
      have hfilter : rest.filter (needsReassign (st.servers.set m (addPlaceholder server)))
          = rest.filter (needsReassign st.servers) := by
        apply List.filter_congr
        intro x _
        exact needsReassign_congr hids x
      have ih1 := ih
        { servers := st.servers.set m (addPlaceholder server),
          calls := st.calls ++ attemptLog env f m server st.calls.length (0 + 1) }
        (m + 1) (filled_set _ _ _ _ hget hpat)
        (by simp only [hfilter, List.length_set]; omega)
      simp only [hfilter] at ih1
      obtain ⟨h1, h2, h3⟩ := ih1
      refine ⟨h1, ?_, ?_⟩
      · rw [h2]
        simp [attemptLog, List.range'_succ]
      · intro a ha
        rcases h3 a ha with hmem | hs
        · simp only [attemptLog, List.mem_append, List.mem_singleton] at hmem
          rcases hmem with hmem | rfl
          · exact Or.inl hmem
          · right; simp [hok]
        · exact Or.inr hs

theorem roundRobin_range (n k : Nat) : RoundRobin n (List.range k) := by
  intro j hj hmem
  simp only [List.length_range] at hj
  rw [List.take_range, List.getD_eq_getElem?_getD, List.getElem?_range hj] at hmem
  simp only [Option.getD_some, List.mem_range] at hmem
  omega

/-! ## Lemmas on the spread of the tracked counts -/

theorem le_maxCount (l : List Server) (s : Server) (h : s ∈ l) : fipCount s ≤ maxCount l := by
  induction l with
  | nil => simp at h
  | cons a l ih =>
    simp only [maxCount]
    rcases List.mem_cons.mp h with rfl | h
    · exact le_max_left _ _
    · exact le_trans (ih h) (le_max_right _ _)

theorem minCount_le (l : List Server) (s : Server) (h : s ∈ l) : minCount l ≤ fipCount s := by
  induction l with
  | nil => simp at h
  | cons a l ih =>
    cases l with
    | nil =>
      simp only [List.mem_singleton] at h
      subst h
      simp [minCount]
    | cons b l =>
      simp only [minCount]
      rcases List.mem_cons.mp h with rfl | h
      · exact min_le_left _ _
      · exact le_trans (min_le_right _ _) (ih h)

theorem maxCount_mem (l : List Server) (h : l ≠ []) : ∃ s ∈ l, fipCount s = maxCount l := by
  induction l with
  | nil => exact absurd rfl h
  | cons a l ih =>
    cases l with
    | nil => exact ⟨a, List.mem_cons_self _ _, by simp [maxCount]⟩
    | cons b l =>
      obtain ⟨s, hs, hc⟩ := ih (by simp)
      simp only [maxCount] at hc ⊢
      by_cases hle : max (fipCount b) (maxCount l) ≤ fipCount a
      · exact ⟨a, List.mem_cons_self _ _, (max_eq_left hle).symm⟩
      · refine ⟨s, List.mem_cons_of_mem _ hs, ?_⟩
        rw [hc]
        exact (max_eq_right (le_of_lt (not_le.mp hle))).symm

theorem minCount_mem (l : List Server) (h : l ≠ []) : ∃ s ∈ l, fipCount s = minCount l := by
  induction l with
  | nil => exact absurd rfl h
  | cons a l ih =>
    cases l with
    | nil => exact ⟨a, List.mem_cons_self _ _, by simp [minCount]⟩
    | cons b l =>
      obtain ⟨s, hs, hc⟩ := ih (by simp)
      simp only [minCount]
      by_cases hle : fipCount a ≤ minCount (b :: l)
      · exact ⟨a, List.mem_cons_self _ _, (min_eq_left hle).symm⟩
      · refine ⟨s, List.mem_cons_of_mem _ hs, ?_⟩
        rw [hc]
        exact (min_eq_right (le_of_lt (not_le.mp hle))).symm

/-- The spread is at most `d` exactly when no two servers differ by more than `d`. -/
theorem spread_le_iff (d : Nat) (l : List Server) : spread l ≤ d ↔ Within d l := by
  unfold spread Within
  constructor
  · intro h s hs t ht
    have h1 := le_maxCount l s hs
    have h2 := minCount_le l t ht
    omega
  · intro h
    by_cases hl : l = []
    · subst hl; simp [maxCount, minCount]
    · obtain ⟨s, hs, hcs⟩ := maxCount_mem l hl
      obtain ⟨t, ht, hct⟩ := minCount_mem l hl
      have := h s hs t ht
      omega

theorem findServerWithLowestFIPAt_min (servers : List Server) (i : Nat) (s : Server)
    (h : findServerWithLowestFIPAt servers = some (i, s)) :
    ∀ t ∈ servers, fipCount s ≤ fipCount t := by
  have hne : servers ≠ [] := by
    intro h0; subst h0; simp [findServerWithLowestFIPAt] at h
  obtain ⟨i1, s1, h1, _, _, h4, _⟩ := findServerWithLowestFIPAt_spec servers hne
  rw [h1] at h
  cases h
  exact h4

/-- Giving the placeholder to a server with a minimal count keeps every bound
`d >= 1` on the differences. -/
theorem within_set (d : Nat) (l : List Server) (i : Nat) (server : Server) (hd : 1 ≤ d)
    (hget : l[i]? = some server) (hmin : ∀ t ∈ l, fipCount server ≤ fipCount t)
    (h : Within d l) : Within d (l.set i (addPlaceholder server)) := by
  have hmem : server ∈ l := List.getElem?_mem hget
  have hnew : fipCount (addPlaceholder server) = fipCount server + 1 := by
    simp [fipCount, addPlaceholder]
  intro s hs t ht
  rcases List.mem_or_eq_of_mem_set hs with hs | rfl
  · rcases List.mem_or_eq_of_mem_set ht with ht | rfl
    · exact h s hs t ht
    · have := h s hs server hmem
      omega
  · rcases List.mem_or_eq_of_mem_set ht with ht | rfl
    · have := hmin t ht
      omega
    · omega

/-- The loop keeps every bound `d >= 1` on the differences of the tracked
counts, however the assign calls turn out. -/
theorem balance_within (env : Env) (fips : List FloatingIP) (st : PassState) (d : Nat)
    (hd : 1 ≤ d) (h : Within d st.servers) : Within d (balance env fips st).servers := by
  induction fips generalizing st with
  | nil => exact h
  | cons f rest ih =>
    cases hneed : needsReassign st.servers f with
    | false =>
      rw [balance_cons_skip env f rest st hneed]
      exact ih st h
    | true =>
      cases hr : reassign env f st with
      | stop r st1 =>
        rw [balance_cons_stop env f rest st st1 r hneed hr]
        simp only [reassign_stop_servers env f st st1 r hr]
        exact h
      | next st1 f1 =>
        rw [balance_cons_next env f f1 rest st st1 hneed hr]
        obtain ⟨i, server, hfind, hs, _⟩ := reassign_next env f f1 st st1 hr
        apply ih st1
        rw [hs]
        exact within_set d st.servers i server hd
          (findServerWithLowestFIPAt_getElem _ _ _ hfind)
          (findServerWithLowestFIPAt_min _ _ _ hfind) h

/-- With every assign call succeeding at once the loop returns `nil` after
one call for each floating IP that needs reassignment. -/
theorem balance_all_succeed (env : Env) (fips : List FloatingIP) (st : PassState)
    (hsteps : 0 < env.Backoff.Steps.toNat)
    (hok : ∀ n f s, env.assign n f s = .success ⟨201⟩) (hne : st.servers ≠ []) :
    (balance env fips st).ret = .nil ∧
    (balance env fips st).calls.length
      = st.calls.length + (fips.filter (needsReassign st.servers)).length := by
  induction fips generalizing st with
  | nil => exact ⟨rfl, by simp [balance]⟩
  | cons f rest ih =>
    cases hneed : needsReassign st.servers f with
    | false =>
      rw [balance_cons_skip env f rest st hneed]
      simp only [List.filter_cons, hneed]
      exact ih st hne
    | true =>
      obtain ⟨i, server, hfind, _⟩ := findServerWithLowestFIPAt_spec st.servers hne
      have hget := findServerWithLowestFIPAt_getElem _ _ _ hfind
      have hr := reassign_first_success env f st i server 0 ⟨201⟩ hfind hsteps
        (by intro k hk0; omega) (hok _ _ _)
      simp only [ne_eq, not_true_eq_false, if_false] at hr
      rw [balance_cons_next env f _ rest st _ hneed hr]
      have hids : serverIDs (st.servers.set i (addPlaceholder server)) = serverIDs st.servers :=
        serverIDs_set_addPlaceholder _ _ _ hget
      have hfilter : rest.filter (needsReassign (st.servers.set i (addPlaceholder server)))
          = rest.filter (needsReassign st.servers) := by
        apply List.filter_congr
        intro x _
        exact needsReassign_congr hids x
      have hne1 : st.servers.set i (addPlaceholder server) ≠ [] := by
        intro h0
        have hlen := congrArg List.length h0
        simp only [List.length_set, List.length_nil] at hlen
        exact hne (List.length_eq_zero.mp hlen)
      have ih1 := ih
        { servers := st.servers.set i (addPlaceholder server),
          calls := st.calls ++ attemptLog env f i server st.calls.length (0 + 1) } hne1
      simp only [hfilter] at ih1
      obtain ⟨h1, h2⟩ := ih1
      refine ⟨h1, ?_⟩
      rw [h2]
      simp only [List.filter_cons, hneed, if_true, List.length_cons, List.length_append,
        attemptLog_length]
      omega

/-! ## Lemmas on `Run` -/

theorem foldl_step_returned (err : Option PassError) (n : Nat) (log : List LogEntry)
    (events : List Event) :
    events.foldl Run.step (.returned err n log) = .returned err n log := by
  induction events with
  | nil => rfl
  | cons ev rest ih => simpa [List.foldl, Run.step] using ih

theorem foldl_step_waiting (n : Nat) (log : List LogEntry) (events : List Event)
    (h : Event.done ∉ events) :
    ∃ log1, events.foldl Run.step (.waiting n log) = .waiting (n + events.length) log1 := by
  induction events generalizing n log with
  | nil => exact ⟨log, rfl⟩
  | cons ev rest ih =>
    have hrest : Event.done ∉ rest := fun hm => h (List.mem_cons_of_mem _ hm)
    cases ev with
    | done => exact absurd (List.mem_cons_self _ _) h
    | tick pass =>
      cases pass with
      | none =>
        obtain ⟨log1, h1⟩ := ih (n + 1) log hrest
        exact ⟨log1, by simp only [List.foldl, Run.step, h1, List.length_cons]; congr 1; omega⟩
      | some e =>
        obtain ⟨log1, h1⟩ := ih (n + 1) (log ++ [.reconciliationFailed e]) hrest
        exact ⟨log1, by simp only [List.foldl, Run.step, h1, List.length_cons]; congr 1; omega⟩

theorem foldl_step_done (n : Nat) (log : List LogEntry) (events : List Event)
    (h : Event.done ∈ events) :
    ∃ n1 log1, events.foldl Run.step (.waiting n log) = .returned none n1 log1 := by
  induction events generalizing n log with
  | nil => simp at h
  | cons ev rest ih =>
    cases ev with
    | done => exact ⟨n, log ++ [.shuttingDown], by simp [List.foldl, Run.step, foldl_step_returned]⟩
    | tick pass =>
      have hrest : Event.done ∈ rest := by
        rcases List.mem_cons.mp h with h0 | h0
        · cases h0
        · exact h0
      cases pass with
      | none => simpa [List.foldl, Run.step] using ih (n + 1) log hrest
      | some e =>
        simpa [List.foldl, Run.step] using ih (n + 1) (log ++ [.reconciliationFailed e]) hrest

theorem start_waiting (initial : Option PassError) :
    ∃ log, Run.start initial = .waiting 1 log := by
  cases initial with
  | none => exact ⟨_, rfl⟩
  | some e => exact ⟨_, rfl⟩

/-! ## C1 -/

/-- C1: for a non-empty list of running servers `findServerWithLowestFIP`
returns the server at some position `i` of the list such that no server of the
list has a strictly smaller tracked floating-IP count and every server at an
earlier position has a strictly larger one. -/
theorem findServerWithLowestFIP_first_minimum (servers : List Server) (h : servers ≠ []) :
    ∃ i s, findServerWithLowestFIPAt servers = some (i, s) ∧
      findServerWithLowestFIP servers = some s ∧
      servers[i]? = some s ∧
      (∀ t ∈ servers, fipCount s ≤ fipCount t) ∧
      (∀ j t, j < i → servers[j]? = some t → fipCount s < fipCount t) :=
  findServerWithLowestFIPAt_spec servers h

/-- Scenario C: of two servers tracking 0 and 2 floating IPs the one with 0 is
returned. -/
theorem findServerWithLowestFIP_first_minimum_witness :
    findServerWithLowestFIP
        [⟨1, "server-1", ⟨[]⟩⟩, ⟨2, "server-2", ⟨[11, 12]⟩⟩]
      = some ⟨1, "server-1", ⟨[]⟩⟩ ∧
    ∃ i s, findServerWithLowestFIPAt
        [⟨1, "server-1", ⟨[]⟩⟩, ⟨2, "server-2", ⟨[11, 12]⟩⟩] = some (i, s) ∧
      findServerWithLowestFIP [⟨1, "server-1", ⟨[]⟩⟩, ⟨2, "server-2", ⟨[11, 12]⟩⟩] = some s ∧
      [(⟨1, "server-1", ⟨[]⟩⟩ : Server), ⟨2, "server-2", ⟨[11, 12]⟩⟩][i]? = some s ∧
      (∀ t ∈ [(⟨1, "server-1", ⟨[]⟩⟩ : Server), ⟨2, "server-2", ⟨[11, 12]⟩⟩],
        fipCount s ≤ fipCount t) ∧
      (∀ j t, j < i → [(⟨1, "server-1", ⟨[]⟩⟩ : Server), ⟨2, "server-2", ⟨[11, 12]⟩⟩][j]? = some t →
        fipCount s < fipCount t) :=
  ⟨by decide, findServerWithLowestFIP_first_minimum _ (by simp)⟩

/-! ## C2 -/

/-- C2: on a snapshot with a non-empty running-server set, when
`UpdateFloatingIPs` returns no error the pass leaves the same floating IPs, in
the same order, and every one of them is assigned to a server whose id is the
id of a running server. -/
theorem UpdateFloatingIPs_nil_assigned_running (env : Env) (running : List Server)
    (fips : List FloatingIP) (hres : Resolves env running fips)
    (hret : (UpdateFloatingIPs env).ret = .nil) :
    (UpdateFloatingIPs env).floatingIPs.map (fun f => (f.ID, f.IP))
        = fips.map (fun f => (f.ID, f.IP)) ∧
    ∀ f ∈ (UpdateFloatingIPs env).floatingIPs,
      ∃ s, f.Server = some s ∧ s.ID ∈ serverIDs running := by
  rw [UpdateFloatingIPs_of_resolves env running fips hres] at hret ⊢
  refine ⟨balance_floatingIPs_same env fips _, ?_⟩
  intro f hf
  have h := balance_nil_assigned env fips _ hret f hf
  unfold needsReassign at h
  cases hs : f.Server with
  | none => rw [hs] at h; simp at h
  | some s =>
    rw [hs] at h
    refine ⟨s, rfl, ?_⟩
    rw [← hasServerByID_iff]
    simpa using h

/-- Scenario: a stale and an unassigned floating IP are moved to running
servers, and the pass ends with every floating IP on a running server. -/
theorem UpdateFloatingIPs_nil_assigned_running_witness :
    (UpdateFloatingIPs envStale).ret = .nil ∧
    ((UpdateFloatingIPs envStale).floatingIPs.map (fun f => (f.ID, f.IP))
        = fipsStale.map (fun f => (f.ID, f.IP)) ∧
      ∀ f ∈ (UpdateFloatingIPs envStale).floatingIPs,
        ∃ s, f.Server = some s ∧ s.ID ∈ serverIDs [server1, server2]) :=
  ⟨by decide,
   UpdateFloatingIPs_nil_assigned_running envStale [server1, server2] fipsStale
     (resolves_snapshotEnv _ _ _ _ (by simp)) (by decide)⟩

/-! ## C3 -/

/-- C3 as stated fails: with two running servers tracking 0 and 2 floating IPs
and two floating IPs to assign, every assign call succeeding, both new
assignments go to the first server, and the second server gets none. -/
theorem round_robin_fails_on_uneven_counts :
    Resolves envUneven [server1, server2] fipsTwo ∧
    (∀ n f s, envUneven.assign n f s = .success ⟨201⟩) ∧
    (fipsTwo.filter (needsReassign [server1, server2])).length ≤ [server1, server2].length ∧
    (UpdateFloatingIPs envUneven).ret = .nil ∧
    (UpdateFloatingIPs envUneven).calls.map (fun a => a.target) = [0, 0] ∧
    ¬ RoundRobin [server1, server2].length
        ((UpdateFloatingIPs envUneven).calls.map (fun a => a.target)) :=
  ⟨resolves_snapshotEnv _ _ _ _ (by simp), fun _ _ _ => rfl, by decide, by decide, by decide,
   by decide⟩

/-- C3, amended: when all running servers track the same number of floating
IPs at the start of the pass, every assign call succeeds and at most as many
floating IPs need reassignment as there are running servers, the new
assignments go to the running servers in slice order, one each, so no server
receives a second one. -/
theorem UpdateFloatingIPs_round_robin_equal_counts (env : Env) (running : List Server)
    (fips : List FloatingIP) (c : Nat) (hres : Resolves env running fips)
    (hsteps : 1 ≤ env.Backoff.Steps)
    (hok : ∀ n f s, env.assign n f s = .success ⟨201⟩)
    (heq : ∀ s ∈ running, fipCount s = c)
    (hk : (fips.filter (needsReassign running)).length ≤ running.length) :
    (UpdateFloatingIPs env).ret = .nil ∧
    (∀ a ∈ (UpdateFloatingIPs env).calls, a.result = .success ⟨201⟩) ∧
    (UpdateFloatingIPs env).calls.map (fun a => a.target)
      = List.range (fips.filter (needsReassign running)).length ∧
    RoundRobin running.length ((UpdateFloatingIPs env).calls.map (fun a => a.target)) := by
  rw [UpdateFloatingIPs_of_resolves env running fips hres]
  have hpat : Filled running c 0 := by
    intro j t hj
    simpa using heq t (List.getElem?_mem hj)
  have hst : 0 < env.Backoff.Steps.toNat := by omega
  obtain ⟨h1, h2, h3⟩ := balance_targets_in_turn env fips
    { servers := running, calls := [] } c 0 hst hok hpat (by simpa using hk)
  simp only [List.map_nil, List.nil_append, ← List.range_eq_range'] at h2
  refine ⟨h1, ?_, h2, ?_⟩
  · intro a ha
    rcases h3 a ha with hmem | hs
    · simp at hmem
    · exact hs
  · rw [h2]
    exact roundRobin_range _ _

/-- Two running servers tracking no floating IP and two floating IPs to
assign: the targets are positions 0 and 1. -/
theorem UpdateFloatingIPs_round_robin_equal_counts_witness :
    (UpdateFloatingIPs envEven).calls.map (fun a => a.target) = [0, 1] ∧
    ((UpdateFloatingIPs envEven).ret = .nil ∧
      (∀ a ∈ (UpdateFloatingIPs envEven).calls, a.result = .success ⟨201⟩) ∧
      (UpdateFloatingIPs envEven).calls.map (fun a => a.target)
        = List.range (fipsTwo.filter (needsReassign [server1, server3])).length ∧
      RoundRobin [server1, server3].length
        ((UpdateFloatingIPs envEven).calls.map (fun a => a.target))) :=
  ⟨by decide,
   UpdateFloatingIPs_round_robin_equal_counts envEven [server1, server3] fipsTwo 0
     (resolves_snapshotEnv _ _ _ _ (by simp)) (by decide) (fun _ _ _ => rfl)
     (by decide) (by decide)⟩

/-! ## C4 -/

/-- C4 on the code: one running server, three unassigned floating IPs, the
assign call for the second failing on each of the 3 attempts.  The pass
assigns the first, tries the second three times, returns the error of the
last attempt and never issues the call for the third. -/
theorem UpdateFloatingIPs_stops_at_failed_assign :
    (UpdateFloatingIPs envScenarioB).ret = .err (.assign "2.2.2.2" "503") ∧
    (UpdateFloatingIPs envScenarioB).calls.map (fun a => a.floatingIP.ID) = [1, 2, 2, 2] ∧
    (UpdateFloatingIPs envScenarioB).floatingIPs.map (fun f => f.Server.map (fun s => s.ID))
      = [some 1, none, none] := by
  decide

/-! ## C5 -/

/-- C5: whatever the outcomes of the initial pass and of the passes run on the
ticks, `Run` returns no error; it has returned exactly when a cancellation was
among the events; without one it is waiting after having run one pass for the
start and one for each tick; and after a tick whose pass failed the next tick
runs another pass. -/
theorem Run_never_fails (initial : Option PassError) (events : List Event) :
    (∀ err n log, Run initial events = .returned err n log → err = none) ∧
    ((∃ err n log, Run initial events = .returned err n log) ↔ Event.done ∈ events) ∧
    (Event.done ∉ events →
      ∃ log, Run initial events = .waiting (events.length + 1) log) ∧
    (Event.done ∉ events → ∀ e r, ∃ n log log1,
      Run initial (events ++ [.tick (some e)]) = .waiting n log ∧
      Run initial (events ++ [.tick (some e), .tick r]) = .waiting (n + 1) log1) := by
  obtain ⟨log0, h0⟩ := start_waiting initial
  have hwait : ∀ evs : List Event, Event.done ∉ evs →
      ∃ log, Run initial evs = .waiting (evs.length + 1) log := by
    intro evs hevs
    obtain ⟨log1, h1⟩ := foldl_step_waiting 1 log0 evs hevs
    exact ⟨log1, by unfold Run; rw [h0, h1]; congr 1; omega⟩
  have hdone : Event.done ∈ events → ∃ n1 log1, Run initial events = .returned none n1 log1 := by
    intro hm
    obtain ⟨n1, log1, h1⟩ := foldl_step_done 1 log0 events hm
    exact ⟨n1, log1, by unfold Run; rw [h0, h1]⟩
  refine ⟨?_, ?_, hwait events, ?_⟩
  · intro err n log h
    by_cases hm : Event.done ∈ events
    · obtain ⟨n1, log1, h1⟩ := hdone hm
      rw [h1] at h
      cases h
      rfl
    · obtain ⟨log1, h1⟩ := hwait events hm
      rw [h1] at h
      cases h
  · constructor
    · rintro ⟨err, n, log, h⟩
      by_contra hm
      obtain ⟨log1, h1⟩ := hwait events hm
      rw [h1] at h
      cases h
    · intro hm
      obtain ⟨n1, log1, h1⟩ := hdone hm
      exact ⟨none, n1, log1, h1⟩
  · intro hm e r
    have hm1 : Event.done ∉ events ++ [Event.tick (some e)] := by
      simp [hm]
    have hm2 : Event.done ∉ events ++ [Event.tick (some e), Event.tick r] := by
      simp [hm]
    obtain ⟨log1, h1⟩ := hwait _ hm1
    obtain ⟨log2, h2⟩ := hwait _ hm2
    refine ⟨_, log1, log2, h1, ?_⟩
    rw [h2]
    simp

/-- A failing initial pass, a failing pass, a good pass, then cancellation:
`Run` has run three passes and returned `nil`; before the cancellation it was
waiting. -/
theorem Run_never_fails_witness :
    Run (some .noIPs) [.tick (some .noServers), .tick none, .done]
      = .returned none 3
          [.initialFailed .noIPs, .reconciliationFailed .noServers, .shuttingDown] ∧
    (Event.done ∉ [Event.tick (some PassError.noServers), Event.tick none]) ∧
    (∃ log, Run (some .noIPs) [.tick (some .noServers), .tick none]
      = .waiting ([Event.tick (some PassError.noServers), Event.tick none].length + 1) log) :=
  ⟨by decide, by decide,
   (Run_never_fails (some .noIPs) [.tick (some .noServers), .tick none]).2.2.1 (by decide)⟩

/-! ## C6 -/

/-- C6: with `Steps >= 1`, for a floating IP that needs reassignment, whatever
the outcomes of the attempts: when attempt `j + 1` is the first without error,
exactly `min Steps (j + 1)` assign calls are issued for it; when each of the
first `Steps` attempts fails, exactly `Steps` calls are issued and the pass
returns the error that carries the error of the last attempt. -/
theorem reassign_attempts_bounded (env : Env) (f : FloatingIP) (rest : List FloatingIP)
    (st : PassState) (i : Nat) (server : Server)
    (hfind : findServerWithLowestFIPAt st.servers = some (i, server))
    (hneed : needsReassign st.servers f = true)
    (hsteps : 1 ≤ env.Backoff.Steps) :
    (∀ j, (∀ k, k < j → (env.assign (st.calls.length + k) f server).err?.isSome = true) →
      (env.assign (st.calls.length + j) f server).err? = none →
      (reassign env f st).calls
        = st.calls ++ attemptLog env f i server st.calls.length
            (min env.Backoff.Steps.toNat (j + 1)) ∧
      (reassign env f st).calls.length
        = st.calls.length + min env.Backoff.Steps.toNat (j + 1)) ∧
    ((∀ k, k < env.Backoff.Steps.toNat →
        (env.assign (st.calls.length + k) f server).err?.isSome = true) →
      ∃ e, (env.assign (st.calls.length + (env.Backoff.Steps.toNat - 1)) f server).err? = some e ∧
        (reassign env f st).calls.length = st.calls.length + env.Backoff.Steps.toNat ∧
        (balance env (f :: rest) st).calls.length = st.calls.length + env.Backoff.Steps.toNat ∧
        (balance env (f :: rest) st).ret = .err (.assign f.IP e)) := by
  obtain ⟨m, hm⟩ : ∃ m, env.Backoff.Steps.toNat = m + 1 :=
    ⟨env.Backoff.Steps.toNat - 1, by omega⟩
  have hall : (∀ k, k < m + 1 →
        (env.assign (st.calls.length + k) f server).err?.isSome = true) →
      ∃ e, (env.assign (st.calls.length + m) f server).err? = some e ∧
        reassign env f st = .stop (.err (.assign f.IP e))
          { servers := st.servers,
            calls := st.calls ++ attemptLog env f i server st.calls.length (m + 1) } := by
    intro hfail
    obtain ⟨e, he⟩ := Option.isSome_iff_exists.mp (hfail m (by omega))
    exact ⟨e, he, reassign_all_fail env f st i server m e hfind hm hfail he⟩
  constructor
  · intro j hfail hok
    by_cases hj : j < env.Backoff.Steps.toNat
    · cases hres : env.assign (st.calls.length + j) f server with
      | failure e r => rw [hres] at hok; simp [AssignResult.err?] at hok
      | success r =>
        have hr := reassign_first_success env f st i server j r hfind hj hfail hres
        have hmin : min env.Backoff.Steps.toNat (j + 1) = j + 1 := by omega
        rw [hr, hmin]
        split <;> simp [Iter.calls, attemptLog_length]
    · have hmin : min env.Backoff.Steps.toNat (j + 1) = m + 1 := by omega
      obtain ⟨e, _, hr⟩ := hall (fun k hk => hfail k (by omega))
      rw [hr, hmin]
      simp [Iter.calls, attemptLog_length]
  · intro hfail
    rw [hm] at hfail
    obtain ⟨e, he, hr⟩ := hall hfail
    refine ⟨e, ?_, ?_, ?_, ?_⟩
    · rw [hm]; simpa using he
    · rw [hr, hm]; simp [Iter.calls, attemptLog_length]
    · rw [balance_cons_stop env f rest st _ _ hneed hr, hm]
      simp [attemptLog_length]
    · rw [balance_cons_stop env f rest st _ _ hneed hr]

/-- With 5 steps and an assign call that fails twice before it succeeds, the
pass issues 3 calls; with 3 steps and a call that always fails it issues 3
calls and returns the error of the third. -/
theorem reassign_attempts_bounded_witness :
    (UpdateFloatingIPs envRecovers).calls.length = 3 ∧
    (UpdateFloatingIPs envRecovers).ret = .nil ∧
    (UpdateFloatingIPs envExhausted).calls.length = 3 ∧
    (UpdateFloatingIPs envExhausted).ret = .err (.assign "1.2.3.4" "2") ∧
    (reassign envRecovers ⟨1, "1.2.3.4", none⟩ ⟨[server1], []⟩).calls.length
      = 0 + min envRecovers.Backoff.Steps.toNat (2 + 1) :=
  ⟨by decide, by decide, by decide, by decide,
   ((reassign_attempts_bounded envRecovers ⟨1, "1.2.3.4", none⟩ [] ⟨[server1], []⟩ 0 server1
      (by decide) (by decide) (by decide)).1 2 (by decide) (by decide)).2⟩

/-! ## C7 -/

/-- C7: when the retried assign call for a floating IP ends with an attempt
that returns no error and status code `s`, the iteration reports the
status-code error for that floating IP and leaves the tracked counts untouched
if and only if `s` is not 201; with 201 the loop goes on, the chosen server
tracking one floating IP more and every other server unchanged. -/
theorem reassign_status_check (env : Env) (f : FloatingIP) (rest : List FloatingIP)
    (st : PassState) (i : Nat) (server : Server) (j : Nat) (s : Int)
    (hfind : findServerWithLowestFIPAt st.servers = some (i, server))
    (hneed : needsReassign st.servers f = true)
    (hj : j < env.Backoff.Steps.toNat)
    (hfail : ∀ k, k < j → (env.assign (st.calls.length + k) f server).err?.isSome = true)
    (hok : env.assign (st.calls.length + j) f server = .success ⟨s⟩) :
    ((∃ st1, reassign env f st = .stop (.err (.statusCode f.IP s)) st1 ∧
        st1.servers = st.servers) ↔ s ≠ 201) ∧
    (s ≠ 201 → (balance env (f :: rest) st).ret = .err (.statusCode f.IP s) ∧
      (balance env (f :: rest) st).servers = st.servers) ∧
    (s = 201 → ∃ st1, reassign env f st = .next st1 { f with Server := some server } ∧
      st1.servers = st.servers.set i (addPlaceholder server) ∧
      st1.servers[i]?.map fipCount = some (fipCount server + 1) ∧
      ∀ p, p ≠ i → st1.servers[p]? = st.servers[p]?) := by
  have hr := reassign_first_success env f st i server j ⟨s⟩ hfind hj hfail hok
  have hget := findServerWithLowestFIPAt_getElem _ _ _ hfind
  have hlt : i < st.servers.length := by
    rcases List.getElem?_eq_some.mp hget with ⟨h, _⟩
    exact h
  by_cases hs : s = 201
  · subst hs
    simp only [ne_eq, not_true_eq_false, if_false] at hr
    refine ⟨?_, ?_, ?_⟩
    · constructor
      · rintro ⟨st1, h1, _⟩
        rw [hr] at h1
        cases h1
      · intro h; exact absurd rfl h
    · intro h; exact absurd rfl h
    · intro _
      refine ⟨_, hr, rfl, ?_, ?_⟩
      · simp [List.getElem?_set, hlt, fipCount, addPlaceholder]
      · intro p hp
        simp [List.getElem?_set, Ne.symm hp]
  · simp only [ne_eq, hs, not_false_eq_true, if_true] at hr
    refine ⟨?_, ?_, ?_⟩
    · constructor
      · intro _; exact hs
      · intro _; exact ⟨_, hr, rfl⟩
    · intro _
      rw [balance_cons_stop env f rest st _ _ hneed hr]
      exact ⟨rfl, rfl⟩
    · intro h; exact absurd h hs

/-- An assign call that fails once and then answers 200: the pass returns the
status-code error and the server still tracks no floating IP. -/
theorem reassign_status_check_witness :
    (UpdateFloatingIPs envStatus200).ret = .err (.statusCode "1.2.3.4" 200) ∧
    (UpdateFloatingIPs envStatus200).servers = [server1] ∧
    ((200 : Int) ≠ 201 →
      (balance envStatus200 [⟨1, "1.2.3.4", none⟩] ⟨[server1], []⟩).ret
        = .err (.statusCode "1.2.3.4" 200) ∧
      (balance envStatus200 [⟨1, "1.2.3.4", none⟩] ⟨[server1], []⟩).servers = [server1]) :=
  ⟨by decide, by decide,
   (reassign_status_check envStatus200 ⟨1, "1.2.3.4", none⟩ [] ⟨[server1], []⟩ 0 server1 1 200
      (by decide) (by decide) (by decide) (by decide) (by decide)).2.1⟩

/-! ## C8 -/

/-- C8: when the resolved node address list is nil or empty the pass returns
the error "could not find any ips", and when the matched running-server list
is nil or empty it returns "no server objects were found"; in both cases no
assign call is issued and the balancing loop is not reached, whatever the
floating-IP source would yield. -/
theorem UpdateFloatingIPs_empty_resolution (env : Env) :
    (∀ addrs, env.nodeAddressList = .ok addrs → (addrs = none ∨ addrs = some []) →
      UpdateFloatingIPs env = failEarly .noIPs ∧ (UpdateFloatingIPs env).calls = []) ∧
    (∀ addrs running, env.nodeAddressList = .ok addrs → ¬ (addrs = none ∨ addrs = some []) →
      env.servers addrs = .ok running → (running = none ∨ running = some []) →
      UpdateFloatingIPs env = failEarly .noServers ∧ (UpdateFloatingIPs env).calls = []) := by
  constructor
  · intro addrs h1 h2
    have hlen : addrs = none ∨ addrs.len < 1 := by
      rcases h2 with h | h
      · exact Or.inl h
      · right; subst h; simp [Slice.len]
    have : UpdateFloatingIPs env = failEarly .noIPs := by
      unfold UpdateFloatingIPs
      simp only [h1, hlen, if_true]
    rw [this]
    exact ⟨rfl, rfl⟩
  · intro addrs running h1 h2 h3 h4
    have hlen : ¬ (addrs = none ∨ addrs.len < 1) := by
      rintro (h | h)
      · exact h2 (Or.inl h)
      · cases addrs with
        | none => exact h2 (Or.inl rfl)
        | some l =>
          cases l with
          | nil => exact h2 (Or.inr rfl)
          | cons a l => simp [Slice.len] at h
    have hlen2 : running = none ∨ running.len < 1 := by
      rcases h4 with h | h
      · exact Or.inl h
      · right; subst h; simp [Slice.len]
    have : UpdateFloatingIPs env = failEarly .noServers := by
      unfold UpdateFloatingIPs
      simp only [h1, hlen, if_false, h3, hlen2, if_true]
    rw [this]
    exact ⟨rfl, rfl⟩

/-- Scenario D: no ready node address, and no matched server. -/
theorem UpdateFloatingIPs_empty_resolution_witness :
    (UpdateFloatingIPs envNoAddresses = failEarly .noIPs ∧
      (UpdateFloatingIPs envNoAddresses).calls = []) ∧
    (UpdateFloatingIPs envNoServers = failEarly .noServers ∧
      (UpdateFloatingIPs envNoServers).calls = []) :=
  ⟨(UpdateFloatingIPs_empty_resolution envNoAddresses).1 (some []) rfl (Or.inr rfl),
   (UpdateFloatingIPs_empty_resolution envNoServers).2 (some ["10.0.0.1"]) none rfl
     (by decide) rfl (Or.inl rfl)⟩

/-! ## C9 -/

/-- C9 on the code: when the server listing fails (`controller.servers`
returning an error, or a nil slice), and when the floating-IP listing fails,
the pass issues no assign call but returns an error. -/
theorem UpdateFloatingIPs_listing_failure_is_returned :
    (UpdateFloatingIPs envServers503).ret = .err (.serverObjects "503") ∧
    (UpdateFloatingIPs envServers503).calls = [] ∧
    (UpdateFloatingIPs envServersNil).ret = .err .noServers ∧
    (UpdateFloatingIPs envServersNil).calls = [] ∧
    (UpdateFloatingIPs envFloatingIPs503).ret = .err (.floatingIPs "503") ∧
    (UpdateFloatingIPs envFloatingIPs503).calls = [] := by
  decide

/-! ## C10 -/

/-- C10: on a snapshot in which every floating IP is assigned to a server
whose id is in the non-empty running set, the pass issues no assign call,
leaves the tracked servers as they are and returns `nil`; and a second pass on
the floating IPs as an error-free first pass left them, with the same running
servers listed again, issues no assign call. -/
theorem UpdateFloatingIPs_idempotent :
    (∀ (env : Env) (running : List Server) (fips : List FloatingIP),
      Resolves env running fips →
      (∀ f ∈ fips, ∃ s, f.Server = some s ∧ s.ID ∈ serverIDs running) →
      (UpdateFloatingIPs env).calls = [] ∧ (UpdateFloatingIPs env).servers = running ∧
      (UpdateFloatingIPs env).ret = .nil ∧ (UpdateFloatingIPs env).floatingIPs = fips) ∧
    (∀ (env1 env2 : Env) (running running2 : List Server) (fips : List FloatingIP),
      Resolves env1 running fips → (UpdateFloatingIPs env1).ret = .nil →
      Resolves env2 running2 (UpdateFloatingIPs env1).floatingIPs →
      serverIDs running2 = serverIDs running →
      (UpdateFloatingIPs env2).calls = [] ∧ (UpdateFloatingIPs env2).ret = .nil) := by
  have hnoop : ∀ (env : Env) (running : List Server) (fips : List FloatingIP),
      Resolves env running fips →
      (∀ f ∈ fips, needsReassign running f = false) →
      UpdateFloatingIPs env
        = { ret := .nil, servers := running, calls := [], floatingIPs := fips } := by
    intro env running fips hres hno
    rw [UpdateFloatingIPs_of_resolves env running fips hres]
    exact balance_noop env fips _ hno
  constructor
  · intro env running fips hres hall
    have hno : ∀ f ∈ fips, needsReassign running f = false := by
      intro f hf
      obtain ⟨s, hs, hid⟩ := hall f hf
      have : hasServerByID running s = true := (hasServerByID_iff running s).mpr hid
      simp [needsReassign, hs, this]
    rw [hnoop env running fips hres hno]
    exact ⟨rfl, rfl, rfl, rfl⟩
  · intro env1 env2 running running2 fips hres1 hret hres2 hids
    have hno : ∀ f ∈ (UpdateFloatingIPs env1).floatingIPs, needsReassign running2 f = false := by
      intro f hf
      rw [needsReassign_congr hids f]
      rw [UpdateFloatingIPs_of_resolves env1 running fips hres1] at hret hf
      exact balance_nil_assigned env1 fips _ hret f hf
    rw [hnoop env2 running2 _ hres2 hno]
    exact ⟨rfl, rfl⟩

/-- After the pass on `fipsStale`, a second pass (whose assign calls would all
fail) issues no call and returns `nil`. -/
theorem UpdateFloatingIPs_idempotent_witness :
    (UpdateFloatingIPs envStale).calls.length = 2 ∧
    (UpdateFloatingIPs envSecondPass).calls = [] ∧
    (UpdateFloatingIPs envSecondPass).ret = .nil :=
  ⟨by decide,
   UpdateFloatingIPs_idempotent.2 envStale envSecondPass [server1, server2] [server1, server2]
     fipsStale (resolves_snapshotEnv _ _ _ _ (by simp)) (by decide)
     (resolves_snapshotEnv _ _ _ _ (by simp)) rfl⟩

/-! ## C11 -/

/-- C11: in a pass in which every assign call succeeds, the pass returns `nil`
after one assign call for each floating IP that needs reassignment, and the
spread of the tracked floating-IP counts over the running servers after the
pass is at most `max d 1`, where `d` is the spread before the pass; and each
successful assignment raises the tracked count of the chosen server by one and
leaves every other server as it was. -/
theorem UpdateFloatingIPs_spread_bounded (env : Env) (running : List Server)
    (fips : List FloatingIP) (hres : Resolves env running fips)
    (hsteps : 1 ≤ env.Backoff.Steps)
    (hok : ∀ n f s, env.assign n f s = .success ⟨201⟩) :
    (UpdateFloatingIPs env).ret = .nil ∧
    (UpdateFloatingIPs env).calls.length = (fips.filter (needsReassign running)).length ∧
    spread (UpdateFloatingIPs env).servers ≤ max (spread running) 1 ∧
    (∀ (f f1 : FloatingIP) (st st1 : PassState), reassign env f st = .next st1 f1 →
      ∃ i server, findServerWithLowestFIPAt st.servers = some (i, server) ∧
        st.servers[i]? = some server ∧
        st1.servers[i]?.map fipCount = some (fipCount server + 1) ∧
        st1.servers.length = st.servers.length ∧
        ∀ p, p ≠ i → st1.servers[p]? = st.servers[p]?) := by
  have hne : running ≠ [] := by
    obtain ⟨_, _, _, _, h, _⟩ := hres
    exact h
  have hst : 0 < env.Backoff.Steps.toNat := by omega
  rw [UpdateFloatingIPs_of_resolves env running fips hres]
  obtain ⟨h1, h2⟩ := balance_all_succeed env fips { servers := running, calls := [] } hst hok hne
  refine ⟨h1, by simpa using h2, ?_, ?_⟩
  · rw [spread_le_iff]
    apply balance_within env fips _ _ (le_max_right _ _)
    exact (spread_le_iff _ running).mp (le_max_left _ _)
  · intro f f1 st st1 hr
    obtain ⟨i, server, hfind, hs, _⟩ := reassign_next env f f1 st st1 hr
    have hget := findServerWithLowestFIPAt_getElem _ _ _ hfind
    have hlt : i < st.servers.length := by
      rcases List.getElem?_eq_some.mp hget with ⟨h, _⟩
      exact h
    refine ⟨i, server, hfind, hget, ?_, ?_, ?_⟩
    · rw [hs]
      simp [List.getElem?_set, hlt, fipCount, addPlaceholder]
    · rw [hs]
      simp
    · intro p hp
      rw [hs]
      simp [List.getElem?_set, Ne.symm hp]

/-- Two running servers tracking no floating IP and one floating IP to assign:
the counts end as 1 and 0, a spread of `max 0 1`. -/
theorem UpdateFloatingIPs_spread_bounded_witness :
    (UpdateFloatingIPs envOne).servers.map fipCount = [1, 0] ∧
    spread [server1, server3] = 0 ∧
    spread (UpdateFloatingIPs envOne).servers = 1 ∧
    (UpdateFloatingIPs envOne).ret = .nil ∧
    (UpdateFloatingIPs envOne).calls.length
      = (([⟨21, "1.1.1.1", none⟩] : List FloatingIP).filter
          (needsReassign [server1, server3])).length ∧
    spread (UpdateFloatingIPs envOne).servers ≤ max (spread [server1, server3]) 1 :=
  ⟨by decide, by decide, by decide,
   (UpdateFloatingIPs_spread_bounded envOne [server1, server3] [⟨21, "1.1.1.1", none⟩]
      (resolves_snapshotEnv _ _ _ _ (by simp)) (by decide) (fun _ _ _ => rfl)).1,
   (UpdateFloatingIPs_spread_bounded envOne [server1, server3] [⟨21, "1.1.1.1", none⟩]
      (resolves_snapshotEnv _ _ _ _ (by simp)) (by decide) (fun _ _ _ => rfl)).2.1,
   (UpdateFloatingIPs_spread_bounded envOne [server1, server3] [⟨21, "1.1.1.1", none⟩]
      (resolves_snapshotEnv _ _ _ _ (by simp)) (by decide) (fun _ _ _ => rfl)).2.2.1⟩

end FipController
